import Mathlib

/-!
Shallow embedding of the data-ingestion and aggregation layer of
`src/main.py` (a Streamlit dashboard over four schools' plant-growth
experiments), together with theorems settling the specification claims.

Conventions of the embedding:
* A directory is a `List (String × α)` of (file name, file content) pairs.
* Unicode NFC normalization (`unicodedata.normalize("NFC", ·)` in the
  source) is an external library routine; it is carried as an explicit
  function argument `nfc : String → String` so that every statement is
  parametric in the normalizer, exactly as the code is parametric in the
  library's behavior.
* A value that pandas would represent as NaN / missing is `Option.none`.
* A Python exception propagating out of a loader is `Except.error`;
  a `st.error(...)` message that does not abort is recorded in a returned
  list of flagged schools.
* Machine floats are modelled as exact rationals `ℚ`; claims about
  floating-point tolerance become exact equalities over `ℚ`.
-/

/-- The fixed school → target-EC mapping `SCHOOL_EC` of the source,
as an association list in the source's insertion order. -/
def SCHOOL_EC : List (String × ℚ) :=
  [("송도고", 1), ("하늘고", 2), ("아라고", 4), ("동산고", 8)]

/-- `SCHOOL_EC.keys()` iteration order (Python dict insertion order). -/
def schools : List String := SCHOOL_EC.map (fun p => p.1)

/-- `SCHOOL_EC.get(s)`: dictionary lookup returning `None` when absent. -/
def SCHOOL_EC_get (s : String) : Option ℚ :=
  (SCHOOL_EC.find? (fun p => p.1 == s)).map (fun p => p.2)

/-- `find_file_by_name(directory, target_name)`: normalize the target once,
scan the directory entries in order, and return the first entry whose
normalized name equals the normalized target; `none` when the scan finds
no match.  The entry carries its content (the returned file handle). -/
def find_file_by_name {α : Type} (nfc : String → String)
    (directory : List (String × α)) (target_name : String) :
    Option (String × α) :=
  directory.find? (fun file => nfc file.1 == nfc target_name)

/-- One raw row of a school's environment CSV.  `time` is the outcome of
attempting to parse that row's time cell (`none` = unparseable, which makes
`pd.to_datetime` raise); `temperature` stands for the remaining numeric
payload of the row. -/
structure EnvRaw where
  time : Option Nat
  temperature : ℚ
deriving DecidableEq, Repr

/-- One parsed row of an `EnvironmentDataset`, after `pd.to_datetime` and
the `df["학교"] = school` tag. -/
structure EnvRow where
  time : Nat
  temperature : ℚ
  school : String
deriving DecidableEq, Repr

/-- Errors a loader can raise (Python exceptions escaping the function). -/
inductive LoadErr where
  /-- the exception raised by `pd.to_datetime` on an unparseable cell -/
  | malformedTimestamp : LoadErr
deriving DecidableEq, Repr

/-- `pd.to_datetime(df["time"])` over a whole file, followed by the school
tag: succeeds with every row kept iff every row's time cell parses, and
raises (`none`) as soon as any row fails to parse.  No row is dropped. -/
def parse_env_rows (school : String) : List EnvRaw → Option (List EnvRow)
  | [] => some []
  | r :: rs =>
    match r.time, parse_env_rows school rs with
    | some t, some rest => some (⟨t, r.temperature, school⟩ :: rest)
    | _, _ => none

/-- The loop body of `load_environment_data`, over an explicit school
list.  A missing file is reported (`st.error`) and skipped (`continue`);
an unparseable timestamp raises out of the whole loop. -/
def loadEnvGo (nfc : String → String) (fs : List (String × List EnvRaw)) :
    List String → Except LoadErr (List (String × List EnvRow) × List String)
  | [] => Except.ok ([], [])
  | s :: ss =>
    match find_file_by_name nfc fs (s ++ "_환경데이터.csv") with
    | none =>
      match loadEnvGo nfc fs ss with
      | Except.ok (m, flagged) => Except.ok (m, s :: flagged)
      | Except.error e => Except.error e
    | some file =>
      match parse_env_rows s file.2 with
      | none => Except.error LoadErr.malformedTimestamp
      | some ds =>
        match loadEnvGo nfc fs ss with
        | Except.ok (m, flagged) => Except.ok ((s, ds) :: m, flagged)
        | Except.error e => Except.error e

/-- `load_environment_data()`: iterate the fixed school set over the data
directory `fs`.  Returns the per-school dataset map together with the list
of schools flagged by `st.error` (missing files), or the propagated
exception. -/
def load_environment_data (nfc : String → String)
    (fs : List (String × List EnvRaw)) :
    Except LoadErr (List (String × List EnvRow) × List String) :=
  loadEnvGo nfc fs schools

/-- One raw row of a growth-workbook sheet: the measured columns
`생중량(g)`, `잎 수(장)`, `지상부 길이(mm)` (a missing cell is `none`). -/
structure GrowthRaw where
  freshWeight : Option ℚ
  leafCount : Option ℚ
  shootLength : Option ℚ
deriving DecidableEq, Repr

/-- One row of the consolidated `GrowthTable`, after the per-sheet stamps
`df["학교"] = sheet` and `df["EC"] = SCHOOL_EC.get(sheet)`. -/
structure GrowthRow where
  school : String
  ec : Option ℚ
  freshWeight : Option ℚ
  leafCount : Option ℚ
  shootLength : Option ℚ
deriving DecidableEq, Repr

/-- How `load_growth_data` can fail.  `emptyWorkbook` is the
classified error the specification's taxonomy names
(`LoadError::EmptyWorkbook`); `valueErrorNoObjects` is the unclassified
`ValueError("No objects to concatenate")` that `pd.concat` raises on an
empty list.  The source never constructs `emptyWorkbook`; it is declared
here so the two outcomes can be compared. -/
inductive GrowthLoadError where
  | emptyWorkbook : GrowthLoadError
  | valueErrorNoObjects : GrowthLoadError
deriving DecidableEq, Repr

/-- Per-sheet processing of `load_growth_data`: parse the sheet, stamp
`학교 = sheet` and `EC = SCHOOL_EC.get(sheet)` on every row. -/
def process_sheet (sheet : String) (rows : List GrowthRaw) : List GrowthRow :=
  rows.map (fun r =>
    ⟨sheet, SCHOOL_EC_get sheet, r.freshWeight, r.leafCount, r.shootLength⟩)

/-- `load_growth_data()`: resolve the workbook file; when it is absent the
source reports the error and returns an empty DataFrame (`ok []`).  When
present, each sheet is processed and the results concatenated; with zero
sheets `pd.concat` receives an empty list and raises its unclassified
`ValueError`. -/
def load_growth_data (nfc : String → String)
    (fs : List (String × List (String × List GrowthRaw))) :
    Except GrowthLoadError (List GrowthRow) :=
  match find_file_by_name nfc fs "4개교_생육결과데이터.xlsx" with
  | none => Except.ok []
  | some file =>
    match file.2 with
    | [] => Except.error GrowthLoadError.valueErrorNoObjects
    | sheet :: rest =>
      Except.ok (((sheet :: rest).map (fun s => process_sheet s.1 s.2)).flatten)

/-- The `if not env_data or growth_df.empty: st.stop()` guard of the
source: `True` exactly when the pipeline halts before rendering. -/
def pipeline_halts (env_data : List (String × List EnvRow))
    (growth_df : List GrowthRow) : Bool :=
  env_data.isEmpty || growth_df.isEmpty

/-!
### Aggregation layer

Embedding of the pandas calls `groupby(key)[col].mean()`,
`groupby(key).size()`, `concat(...)[col].mean()` and `.idxmax()` used by
the source.  pandas semantics captured here: group keys are the distinct
non-missing key values in ascending order; a group's mean skips missing
values in both sum and count (an all-missing group has mean NaN = `none`);
`.size()` counts every row of the group; a column mean skips missing
values; `.idxmax()` returns the label of the first occurrence of the
maximum, skipping NaN entries, and raises (here `none`) on an empty or
all-NaN column.
-/

/-- Insert a key into an ascending duplicate-free list, keeping it
ascending and duplicate-free. -/
def insertAsc (x : ℚ) : List ℚ → List ℚ
  | [] => [x]
  | y :: ys =>
    if x < y then x :: y :: ys
    else if x = y then y :: ys
    else y :: insertAsc x ys

section Agg

variable {α : Type} (key : α → Option ℚ) (val : α → Option ℚ)

/-- The distinct non-missing values of `key` in `t`, ascending: the index
of `t.groupby(key)` (pandas sorts group keys and drops missing keys). -/
def sortedKeys (t : List α) : List ℚ :=
  (t.filterMap key).foldr insertAsc []

/-- The rows of group `k`. -/
def groupRows (t : List α) (k : ℚ) : List α :=
  t.filter (fun r => key r == some k)

/-- The non-missing values of `val` within group `k`. -/
def groupVals (t : List α) (k : ℚ) : List ℚ :=
  ((groupRows key t k).filterMap val)

/-- The mean pandas reports for group `k`: missing values are excluded
from both the sum and the count; an all-missing group gets NaN (`none`). -/
def groupMean (t : List α) (k : ℚ) : Option ℚ :=
  if (groupVals key val t k).length = 0 then none
  else some ((groupVals key val t k).sum / (groupVals key val t k).length)

/-- `t.groupby(key)[val].mean()` as an ordered association list. -/
def meanBy (t : List α) : List (ℚ × Option ℚ) :=
  (sortedKeys key t).map (fun k => (k, groupMean key val t k))

/-- `t.groupby(key).size()`: row counts per group. -/
def countBy (t : List α) : List (ℚ × ℕ) :=
  (sortedKeys key t).map (fun k => (k, (groupRows key t k).length))

/-- `t[val].mean()` over the whole table: mean of the non-missing values,
NaN (`none`) when there are none. -/
def overallMean (t : List α) : Option ℚ :=
  if (t.filterMap val).length = 0 then none
  else some ((t.filterMap val).sum / (t.filterMap val).length)

/-- The recombination the specification describes: the per-group means of
`meanBy`, weighted by the per-group counts of `countBy`, summed and
divided by the total count (`none` when there is nothing to recombine). -/
def weightedRecomb (t : List α) : Option ℚ :=
  if ((countBy key t).map (fun p => p.2)).sum = 0 then none
  else some
    ((((meanBy key val t).zip (countBy key t)).map
        (fun p => p.1.2.getD 0 * (p.2.2 : ℚ))).sum /
      (((countBy key t).map (fun p => p.2)).sum : ℚ))

end Agg

/-- The first entry attaining the maximum value in a list of
(label, value) pairs: the scan underlying `Series.idxmax`. -/
def firstMax : List (ℚ × ℚ) → Option (ℚ × ℚ)
  | [] => none
  | p :: ps =>
    match firstMax ps with
    | none => some p
    | some q => if q.2 > p.2 then some q else some p

/-- `Series.idxmax()` on a (label, value) association list: NaN values are
skipped; the label of the first maximal remaining entry is returned; an
empty (or all-NaN) series raises, modelled as `none`. -/
def idxmax (l : List (ℚ × Option ℚ)) : Option ℚ :=
  (firstMax (l.filterMap (fun p => p.2.map (fun v => (p.1, v))))).map
    (fun p => p.1)

/-- `growth_df.groupby("EC")["생중량(g)"].mean().idxmax()` — the optimal
EC reported by the source (both `optimal_ec` in tab 1 and `best_ec` in
tab 3 compute exactly this). -/
def best_ec (t : List GrowthRow) : Option ℚ :=
  idxmax (meanBy (fun r => r.ec) (fun r => r.freshWeight) t)

/-- The headline markdown of tab 3:
`st.markdown(f"### ⭐ 최적 EC 농도: **{best_ec} (하늘고)**")`, undefined
(`none`) when `best_ec` raised. -/
def growth_headline (t : List GrowthRow) : Option String :=
  (best_ec t).map (fun b =>
    "### ⭐ 최적 EC 농도: **" ++ toString b ++ " (하늘고)**")

/-!
### Helper lemmas on the key index and the max scan
-/

theorem mem_insertAsc (x a : ℚ) (l : List ℚ) :
    a ∈ insertAsc x l ↔ a = x ∨ a ∈ l := by
  induction l with
  | nil => simp [insertAsc]
  | cons y ys ih =>
    simp only [insertAsc]
    split_ifs with h1 h2
    · simp [List.mem_cons]
    · subst h2
      simp only [List.mem_cons]
      tauto
    · simp only [List.mem_cons, ih]
      tauto

theorem sorted_insertAsc (x : ℚ) (l : List ℚ) (h : l.Sorted (· < ·)) :
    (insertAsc x l).Sorted (· < ·) := by
  induction l with
  | nil => simp [insertAsc]
  | cons y ys ih =>
    rw [List.sorted_cons] at h
    simp only [insertAsc]
    split_ifs with h1 h2
    · simp only [List.sorted_cons, List.mem_cons]
      refine ⟨?_, h.1, h.2⟩
      rintro b (rfl | hb)
      · exact h1
      · exact lt_trans h1 (h.1 b hb)
    · subst h2
      exact List.sorted_cons.mpr h
    · simp only [List.sorted_cons]
      refine ⟨?_, ih h.2⟩
      intro b hb
      rcases (mem_insertAsc x b ys).mp hb with rfl | hb
      · exact lt_of_le_of_ne (not_lt.mp h1) (Ne.symm h2)
      · exact h.1 b hb

theorem insertAsc_of_mem (x : ℚ) (l : List ℚ) (hs : l.Sorted (· < ·))
    (hm : x ∈ l) : insertAsc x l = l := by
  induction l with
  | nil => cases hm
  | cons y ys ih =>
    rw [List.sorted_cons] at hs
    rcases List.mem_cons.mp hm with rfl | h
    · simp [insertAsc, lt_irrefl]
    · have hy : y < x := hs.1 x h
      simp only [insertAsc, if_neg (not_lt.mpr hy.le), if_neg (ne_of_gt hy)]
      rw [ih hs.2 h]

theorem sorted_sortedKeys {α : Type} (key : α → Option ℚ) (t : List α) :
    (sortedKeys key t).Sorted (· < ·) := by
  unfold sortedKeys
  generalize t.filterMap key = l
  induction l with
  | nil => simp
  | cons a as ih => exact sorted_insertAsc a _ ih

theorem nodup_sortedKeys {α : Type} (key : α → Option ℚ) (t : List α) :
    (sortedKeys key t).Nodup :=
  (sorted_sortedKeys key t).nodup

theorem mem_sortedKeys {α : Type} (key : α → Option ℚ) (t : List α) (k : ℚ) :
    k ∈ sortedKeys key t ↔ ∃ r ∈ t, key r = some k := by
  unfold sortedKeys
  have hfold : ∀ l : List ℚ, k ∈ l.foldr insertAsc [] ↔ k ∈ l := by
    intro l
    induction l with
    | nil => simp
    | cons a as ih => simp [mem_insertAsc, ih]
  rw [hfold]
  simp [List.mem_filterMap]

theorem firstMax_eq_none (l : List (ℚ × ℚ)) : firstMax l = none ↔ l = [] := by
  cases l with
  | nil => simp [firstMax]
  | cons p ps =>
    simp only [firstMax]
    cases firstMax ps with
    | none => simp
    | some q =>
      by_cases h : q.2 > p.2 <;> simp [h]

theorem firstMax_spec (l : List (ℚ × ℚ)) (q : ℚ × ℚ)
    (h : firstMax l = some q) :
    ∃ l₁ l₂, l = l₁ ++ q :: l₂ ∧ (∀ p ∈ l₁, p.2 < q.2) ∧
      (∀ p ∈ l, p.2 ≤ q.2) := by
  induction l generalizing q with
  | nil => simp [firstMax] at h
  | cons p ps ih =>
    rw [firstMax] at h
    cases hm : firstMax ps with
    | none =>
      simp only [hm] at h
      have hq : p = q := by injection h
      have hnil : ps = [] := (firstMax_eq_none ps).mp hm
      subst hq; subst hnil
      exact ⟨[], [], rfl, by simp, by simp⟩
    | some m =>
      simp only [hm] at h
      by_cases hgt : m.2 > p.2
      · rw [if_pos hgt] at h
        have hq : m = q := by injection h
        subst hq
        obtain ⟨l₁, l₂, he, hlt, hle⟩ := ih m hm
        refine ⟨p :: l₁, l₂, by rw [he, List.cons_append], ?_, ?_⟩
        · intro x hx
          rcases List.mem_cons.mp hx with rfl | hx
          · exact hgt
          · exact hlt x hx
        · intro x hx
          rcases List.mem_cons.mp hx with rfl | hx
          · exact le_of_lt hgt
          · exact hle x hx
      · rw [if_neg hgt] at h
        have hq : p = q := by injection h
        subst hq
        obtain ⟨l₁, l₂, he, hlt, hle⟩ := ih m hm
        refine ⟨[], ps, rfl, by simp, ?_⟩
        intro x hx
        rcases List.mem_cons.mp hx with rfl | hx
        · exact le_refl _
        · exact le_trans (hle x hx) (not_lt.mp hgt)

/-!
### Claim C6 — filename resolution under Unicode normalization
-/

/-- **C6.**  For every directory and every target name, `find_file_by_name`
returns a file whenever the directory contains an entry whose name is
canonically equal to the target under the normalizer (even when the
on-disk form and the query form differ), and returns `none` — a value,
NotFound, not an exception — when no entry's normalized name equals the
normalized target after scanning the whole directory. -/
theorem c6_resolve_unicode {α : Type} (nfc : String → String)
    (directory : List (String × α)) (target : String) :
    ((∃ e ∈ directory, nfc e.1 = nfc target) →
      ∃ e, find_file_by_name nfc directory target = some e ∧
        e ∈ directory ∧ nfc e.1 = nfc target) ∧
    ((∀ e ∈ directory, nfc e.1 ≠ nfc target) →
      find_file_by_name nfc directory target = none) := by
  constructor
  · rintro ⟨e, he, hn⟩
    have hsome : (find_file_by_name nfc directory target).isSome := by
      unfold find_file_by_name
      rw [List.find?_isSome]
      exact ⟨e, he, by simp [hn]⟩
    obtain ⟨f, hf⟩ := Option.isSome_iff_exists.mp hsome
    refine ⟨f, hf, List.mem_of_find?_eq_some hf, ?_⟩
    have hp := List.find?_some hf
    simpa using hp
  · intro h
    unfold find_file_by_name
    rw [List.find?_eq_none]
    intro e he
    simp [h e he]

/-- Toy canonicalizer used by the C6 witness: it composes the decomposed
Hangul syllable `ᄀ` + `ᅡ` (U+1100 U+1161) into the composed `가`
(U+AC00), exactly what NFC does on this pair. -/
def hangulCompose : String → String := fun s =>
  if s = "가" then "가" else s

/-- Witness for C6: the directory stores the decomposed form, the query is
the composed form, and resolution still succeeds. -/
theorem c6_resolve_unicode_witness :
    ∃ e, find_file_by_name hangulCompose [("가", 0)] "가" =
        some e ∧
      e ∈ [("가", (0 : ℕ))] ∧
      hangulCompose e.1 = hangulCompose "가" :=
  (c6_resolve_unicode hangulCompose [("가", 0)] "가").1
    ⟨("가", 0), by simp, by simp [hangulCompose]⟩

/-!
### Claim C2 — the halt guard
-/

/-- **C2 counterexample.**  With one loaded environment dataset and zero
growth rows — one of the two data sources is usable — the guard still
halts: the condition implemented is a disjunction, not the conjunction the
claim states. -/
theorem c2_counterexample :
    pipeline_halts [("송도고", [⟨0, 20, "송도고"⟩])] [] = true ∧
    ([("송도고", [⟨0, 20, "송도고"⟩])] : List (String × List EnvRow)) ≠ [] := by
  constructor
  · rfl
  · simp

/-- **C2 amended.**  The pipeline halts exactly when the environment map
is empty OR the growth table is empty; it proceeds to render only when
both data sources yielded data. -/
theorem c2_amended (env_data : List (String × List EnvRow))
    (growth_df : List GrowthRow) :
    pipeline_halts env_data growth_df = false ↔
      env_data ≠ [] ∧ growth_df ≠ [] := by
  cases env_data <;> cases growth_df <;> simp [pipeline_halts]

/-!
### Claim C3 — empty workbook
-/

/-- **C3 counterexample.**  On a workbook with zero sheets,
`load_growth_data` fails with the unclassified `ValueError` of
`pd.concat`, not with the classified `EmptyWorkbook` error the claim
states. -/
theorem c3_counterexample :
    load_growth_data id [("4개교_생육결과데이터.xlsx", [])] =
      Except.error GrowthLoadError.valueErrorNoObjects ∧
    load_growth_data id [("4개교_생육결과데이터.xlsx", [])] ≠
      Except.error GrowthLoadError.emptyWorkbook := by
  refine ⟨rfl, fun h => ?_⟩
  rw [show load_growth_data id [("4개교_생육결과데이터.xlsx", [])] =
      Except.error GrowthLoadError.valueErrorNoObjects from rfl] at h
  injection h with h2
  cases h2

/-- **C3 amended.**  `load_growth_data` applied to a resolvable workbook
that contains zero sheets fails, but with the unclassified
`ValueError("No objects to concatenate")` raised by `pd.concat` on an
empty list — there is no classified `EmptyWorkbook` error in the code. -/
theorem c3_amended (nfc : String → String)
    (fs : List (String × List (String × List GrowthRaw)))
    (f : String × List (String × List GrowthRaw))
    (hf : find_file_by_name nfc fs "4개교_생육결과데이터.xlsx" = some f)
    (hempty : f.2 = []) :
    load_growth_data nfc fs = Except.error GrowthLoadError.valueErrorNoObjects ∧
    load_growth_data nfc fs ≠ Except.error GrowthLoadError.emptyWorkbook := by
  have h1 : load_growth_data nfc fs =
      Except.error GrowthLoadError.valueErrorNoObjects := by
    unfold load_growth_data
    simp only [hf]
    simp only [hempty]
  refine ⟨h1, fun h => ?_⟩
  rw [h1] at h
  injection h with h2
  cases h2

/-- Witness for C3 (amended): a concrete directory holding a zero-sheet
workbook. -/
theorem c3_amended_witness :
    load_growth_data id
        [("기타파일.csv", []), ("4개교_생육결과데이터.xlsx", [])] =
      Except.error GrowthLoadError.valueErrorNoObjects ∧
    load_growth_data id
        [("기타파일.csv", []), ("4개교_생육결과데이터.xlsx", [])] ≠
      Except.error GrowthLoadError.emptyWorkbook :=
  c3_amended id [("기타파일.csv", []), ("4개교_생육결과데이터.xlsx", [])]
    ("4개교_생육결과데이터.xlsx", []) rfl rfl

/-!
### Claim C4 — the EC join invariant
-/

/-- Rows produced by `process_sheet` carry the sheet name as school and
the `SCHOOL_EC` lookup of the sheet name as EC. -/
theorem mem_process_sheet (sheet : String) (rows : List GrowthRaw)
    (r : GrowthRow) (h : r ∈ process_sheet sheet rows) :
    r.school = sheet ∧ r.ec = SCHOOL_EC_get sheet := by
  unfold process_sheet at h
  obtain ⟨x, hx, rfl⟩ := List.mem_map.mp h
  exact ⟨rfl, rfl⟩

/-- **C4.**  Every row of a successfully loaded GrowthTable has its `ec`
field equal to the `SCHOOL_EC` lookup of its `school` field; when the
sheet name matches no known school, the lookup is absent and the rows of
that sheet get a null (`none`) EC. -/
theorem c4_ec_invariant :
    (∀ (nfc : String → String)
        (fs : List (String × List (String × List GrowthRaw)))
        (t : List GrowthRow),
        load_growth_data nfc fs = Except.ok t →
        ∀ r ∈ t, r.ec = SCHOOL_EC_get r.school) ∧
    (∀ (sheet : String) (rows : List GrowthRaw) (r : GrowthRow),
        r ∈ process_sheet sheet rows → SCHOOL_EC_get sheet = none →
        r.ec = none) := by
  constructor
  · intro nfc fs t h r hr
    unfold load_growth_data at h
    cases hf : find_file_by_name nfc fs "4개교_생육결과데이터.xlsx" with
    | none =>
      simp only [hf] at h
      injection h with h2
      subst h2
      cases hr
    | some file =>
      simp only [hf] at h
      cases hwb : file.2 with
      | nil =>
        simp only [hwb] at h
        cases h
      | cons sh rest =>
        simp only [hwb] at h
        injection h with h2
        subst h2
        rw [List.mem_flatten] at hr
        obtain ⟨l, hl, hrl⟩ := hr
        obtain ⟨sp, hsp, rfl⟩ := List.mem_map.mp hl
        obtain ⟨hs, he⟩ := mem_process_sheet sp.1 sp.2 r hrl
        rw [he, hs]
  · intro sheet rows r hr hnone
    obtain ⟨hs, he⟩ := mem_process_sheet sheet rows r hr
    rw [he, hnone]

/-- Witness for C4: a workbook with one unknown sheet name (`세종고`) is
loaded; its row satisfies the join invariant and gets a null EC. -/
theorem c4_ec_invariant_witness :
    (∀ r ∈ [(⟨"세종고", none, some 1, none, none⟩ : GrowthRow)],
        r.ec = SCHOOL_EC_get r.school) ∧
    (⟨"세종고", none, some 1, none, none⟩ : GrowthRow).ec = none :=
  ⟨c4_ec_invariant.1 id
      [("4개교_생육결과데이터.xlsx", [("세종고", [⟨some 1, none, none⟩])])]
      [⟨"세종고", none, some 1, none, none⟩] rfl,
   c4_ec_invariant.2 "세종고" [⟨some 1, none, none⟩]
      ⟨"세종고", none, some 1, none, none⟩
      (List.mem_singleton.mpr rfl) rfl⟩

/-!
### Claim C10 — the hardcoded headline school
-/

/-- **C10.**  Whatever growth table is loaded and whichever EC value wins
the mean fresh-weight comparison, the tab-3 headline attributes the
optimum to the fixed literal 하늘고: every rendered headline ends in
" (하늘고)**". -/
theorem c10_headline_fixed_school (t : List GrowthRow) (s : String)
    (h : growth_headline t = some s) :
    ∃ p, s = p ++ " (하늘고)**" := by
  unfold growth_headline at h
  cases hb : best_ec t with
  | none =>
    rw [hb] at h
    simp at h
  | some b =>
    rw [hb] at h
    have h2 : ("### ⭐ 최적 EC 농도: **" ++ toString b ++ " (하늘고)**") = s := by
      simpa using h
    exact ⟨"### ⭐ 최적 EC 농도: **" ++ toString b, h2.symm⟩

/-- Witness for C10: a concrete table whose winning EC is 8 — not
하늘고's target EC 2.0 — still yields a headline naming 하늘고. -/
theorem c10_headline_fixed_school_witness :
    best_ec [⟨"동산고", some 8, some 10, none, none⟩,
             ⟨"하늘고", some 2, some 1, none, none⟩] = some 8 ∧
    (8 : ℚ) ≠ 2 ∧
    ∃ p, ("### ⭐ 최적 EC 농도: **8 (하늘고)**" : String) = p ++ " (하늘고)**" := by
  have hb : best_ec [⟨"동산고", some 8, some 10, none, none⟩,
      ⟨"하늘고", some 2, some 1, none, none⟩] = some 8 := by
    norm_num [best_ec, meanBy, sortedKeys, groupMean, groupVals, groupRows,
      idxmax, firstMax, insertAsc, List.filterMap, List.filter]
  have hh : growth_headline [⟨"동산고", some 8, some 10, none, none⟩,
      ⟨"하늘고", some 2, some 1, none, none⟩] =
      some "### ⭐ 최적 EC 농도: **8 (하늘고)**" := by
    unfold growth_headline
    rw [hb]
    rfl
  exact ⟨hb, by norm_num, c10_headline_fixed_school _ _ hh⟩

/-!
### Claim C5 — argmax over a means map
-/

/-- Lifting a NaN-free means map into `idxmax`'s input is the identity on
its entries. -/
theorem filterMap_lift_somes (l : List (ℚ × ℚ)) :
    (l.map (fun p => (p.1, some p.2))).filterMap
      (fun p => p.2.map (fun v => (p.1, v))) = l := by
  induction l with
  | nil => simp
  | cons p ps ih => simp [ih]

/-- **C5.**  On every non-empty means map, `idxmax` returns a key whose
mean is greatest, and among tied keys the first-encountered one in the
map's iteration order (it is the first entry no earlier entry strictly
exceeds), so the result is a deterministic function of the map; the
iteration order of a pandas means map is ascending key order, as the last
conjunct records for `meanBy`; and `idxmax` of the empty map yields `none`
(the raised no-data error), never a key. -/
theorem c5_argmax :
    (∀ l : List (ℚ × ℚ), l ≠ [] →
      ∃ k v l₁ l₂,
        idxmax (l.map (fun p => (p.1, some p.2))) = some k ∧
        l = l₁ ++ (k, v) :: l₂ ∧
        (∀ p ∈ l₁, p.2 < v) ∧ (∀ p ∈ l, p.2 ≤ v)) ∧
    idxmax [] = none ∧
    (∀ (β : Type) (key val : β → Option ℚ) (t : List β),
      ((meanBy key val t).map (fun p => p.1)).Sorted (· < ·)) := by
  refine ⟨?_, rfl, ?_⟩
  · intro l hl
    cases hq : firstMax l with
    | none => exact absurd ((firstMax_eq_none l).mp hq) hl
    | some q =>
      obtain ⟨l₁, l₂, he, hlt, hle⟩ := firstMax_spec l q hq
      refine ⟨q.1, q.2, l₁, l₂, ?_, by rw [he], hlt, hle⟩
      unfold idxmax
      rw [filterMap_lift_somes, hq]
      rfl
  · intro β key val t
    have hm : ∀ ks : List ℚ,
        (ks.map (fun k => (k, groupMean key val t k))).map (fun p => p.1) =
        ks := by
      intro ks
      induction ks with
      | nil => rfl
      | cons a as ih => simp only [List.map_cons, ih]
    unfold meanBy
    rw [hm]
    exact sorted_sortedKeys key t

/-- Witness for C5 at a concrete means map with a tie: the first (and
least) of the two tied keys is returned. -/
theorem c5_argmax_witness :
    ∃ k v l₁ l₂,
      idxmax ([((1:ℚ), (5:ℚ)), (2, 7), (4, 7)].map
        (fun p => (p.1, some p.2))) = some k ∧
      [((1:ℚ), (5:ℚ)), (2, 7), (4, 7)] = l₁ ++ (k, v) :: l₂ ∧
      (∀ p ∈ l₁, p.2 < v) ∧
      (∀ p ∈ [((1:ℚ), (5:ℚ)), (2, 7), (4, 7)], p.2 ≤ v) :=
  c5_argmax.1 [(1, 5), (2, 7), (4, 7)] (by simp)

/-!
### Claim C8 — meanBy semantics
-/

/-- Prepending a row whose key is `some k` inserts `k` into the key
index. -/
theorem sortedKeys_cons_some {β : Type} (key : β → Option ℚ) (r : β)
    (t : List β) (k : ℚ) (h : key r = some k) :
    sortedKeys key (r :: t) = insertAsc k (sortedKeys key t) := by
  unfold sortedKeys
  simp [List.filterMap_cons, h]

/-- A row with a missing value contributes nothing to any group's value
list. -/
theorem groupVals_cons_none {β : Type} (key val : β → Option ℚ) (r : β)
    (t : List β) (k : ℚ) (hv : val r = none) :
    groupVals key val (r :: t) k = groupVals key val t k := by
  unfold groupVals groupRows
  cases hk : (key r == some k) <;>
    simp [List.filter_cons, hk, List.filterMap_cons, hv]

/-- **C8.**  `meanBy` computes per-group arithmetic means of the value
column: a key appears in the result only if at least one row has it; a
reported mean `q` satisfies `q · n = Σ` over exactly the non-missing
values of the group (missing values are excluded from both the sum and
the count, whose positivity is part of the statement — they are not
treated as zero, as the third conjunct shows by erasing a missing-valued
row without changing the result); and `meanBy` of the empty table is the
empty map, not an error. -/
theorem c8_meanBy :
    (∀ (β : Type) (key val : β → Option ℚ) (t : List β) (k : ℚ)
        (m : Option ℚ),
        (k, m) ∈ meanBy key val t → ∃ r ∈ t, key r = some k) ∧
    (∀ (β : Type) (key val : β → Option ℚ) (t : List β) (k q : ℚ),
        (k, some q) ∈ meanBy key val t →
        0 < (groupVals key val t k).length ∧
        q * (groupVals key val t k).length = (groupVals key val t k).sum) ∧
    (∀ (β : Type) (key val : β → Option ℚ) (r : β) (t : List β) (k : ℚ),
        val r = none → key r = some k → (∃ r2 ∈ t, key r2 = some k) →
        meanBy key val (r :: t) = meanBy key val t) ∧
    (∀ (β : Type) (key val : β → Option ℚ),
        meanBy key val ([] : List β) = []) := by
  refine ⟨?_, ?_, ?_, ?_⟩
  · intro β key val t k m h
    unfold meanBy at h
    obtain ⟨k2, hk2, heq⟩ := List.mem_map.mp h
    injection heq with h1 h2
    subst h1
    exact (mem_sortedKeys key t k2).mp hk2
  · intro β key val t k q h
    unfold meanBy at h
    obtain ⟨k2, hk2, heq⟩ := List.mem_map.mp h
    injection heq with h1 h2
    subst h1
    unfold groupMean at h2
    by_cases hl : (groupVals key val t k2).length = 0
    · rw [if_pos hl] at h2
      cases h2
    · rw [if_neg hl] at h2
      injection h2 with h3
      refine ⟨Nat.pos_of_ne_zero hl, ?_⟩
      rw [← h3]
      exact div_mul_cancel₀ _ (Nat.cast_ne_zero.mpr hl)
  · rintro β key val r t k hv hk ⟨r2, hr2, hk2⟩
    have hsk : sortedKeys key (r :: t) = sortedKeys key t := by
      rw [sortedKeys_cons_some key r t k hk]
      exact insertAsc_of_mem k _ (sorted_sortedKeys key t)
        ((mem_sortedKeys key t k).mpr ⟨r2, hr2, hk2⟩)
    have hgm : ∀ k2 : ℚ, groupMean key val (r :: t) k2 =
        groupMean key val t k2 := by
      intro k2
      unfold groupMean
      rw [groupVals_cons_none key val r t k2 hv]
    unfold meanBy
    rw [hsk]
    simp only [hgm]
  · intro β key val
    rfl

/-- Witness for C8 at a concrete table (key = first component, value =
second): one missing value in group 1 changes nothing; the reported
mean of group 1 is the mean of its single non-missing value. -/
theorem c8_meanBy_witness :
    (∃ r ∈ [((some 1 : Option ℚ), (some 5 : Option ℚ)), (some 1, none),
        (some 2, some 7)], r.1 = some 1) ∧
    (0 < (groupVals Prod.fst Prod.snd
        [((some 1 : Option ℚ), (some 5 : Option ℚ)), (some 1, none),
          (some 2, some 7)] 1).length ∧
      (5 : ℚ) * (groupVals Prod.fst Prod.snd
        [((some 1 : Option ℚ), (some 5 : Option ℚ)), (some 1, none),
          (some 2, some 7)] 1).length =
        (groupVals Prod.fst Prod.snd
        [((some 1 : Option ℚ), (some 5 : Option ℚ)), (some 1, none),
          (some 2, some 7)] 1).sum) ∧
    meanBy Prod.fst Prod.snd (((some 1 : Option ℚ), (none : Option ℚ)) ::
        [((some 1 : Option ℚ), (some 5 : Option ℚ)), (some 2, some 7)]) =
      meanBy Prod.fst Prod.snd
        [((some 1 : Option ℚ), (some 5 : Option ℚ)), (some 2, some 7)] := by
  have hmem : ((1 : ℚ), (some (5 : ℚ) : Option ℚ)) ∈ meanBy Prod.fst Prod.snd
      [((some 1 : Option ℚ), (some 5 : Option ℚ)), (some 1, none),
        (some 2, some 7)] := by
    norm_num [meanBy, sortedKeys, groupMean, groupVals, groupRows,
      insertAsc, List.filterMap, List.filter]
  refine ⟨?_, ?_, ?_⟩
  · exact c8_meanBy.1 (Option ℚ × Option ℚ) Prod.fst Prod.snd _ 1 (some 5) hmem
  · exact c8_meanBy.2.1 (Option ℚ × Option ℚ) Prod.fst Prod.snd _ 1 5 hmem
  · exact c8_meanBy.2.2.1 (Option ℚ × Option ℚ) Prod.fst Prod.snd
      (some 1, none) _ 1 rfl rfl ⟨(some 1, some 5), by simp, rfl⟩

/-!
### Claim C1 — malformed timestamps
-/

/-- `pd.to_datetime` raises whenever some row's time cell is
unparseable. -/
theorem parse_env_rows_none (s : String) (rows : List EnvRaw)
    (h : ∃ r ∈ rows, r.time = none) : parse_env_rows s rows = none := by
  induction rows with
  | nil =>
    obtain ⟨r, hr, _⟩ := h
    cases hr
  | cons r rs ih =>
    obtain ⟨r2, hr2, ht⟩ := h
    rcases List.mem_cons.mp hr2 with rfl | hr2
    · simp only [parse_env_rows, ht]
    · simp only [parse_env_rows, ih ⟨r2, hr2, ht⟩]
      cases r.time <;> rfl

/-- When the whole time column parses, every row is kept: no silent
row-dropping. -/
theorem parse_env_rows_length (s : String) (rows : List EnvRaw)
    (ds : List EnvRow) (h : parse_env_rows s rows = some ds) :
    ds.length = rows.length := by
  induction rows generalizing ds with
  | nil =>
    simp only [parse_env_rows] at h
    injection h with h2
    subst h2
    rfl
  | cons r rs ih =>
    unfold parse_env_rows at h
    cases ht : r.time with
    | none =>
      simp only [ht] at h
      cases h
    | some tv =>
      simp only [ht] at h
      cases hp : parse_env_rows s rs with
      | none =>
        simp only [hp] at h
        cases h
      | some rest =>
        simp only [hp] at h
        injection h with h2
        subst h2
        simp [ih rest hp]

/-- A single school with a found file containing an unparseable time cell
makes the whole environment-loading loop raise. -/
theorem loadEnvGo_error (nfc : String → String)
    (fs : List (String × List EnvRaw)) :
    ∀ L : List String,
      (∃ s ∈ L, ∃ file,
          find_file_by_name nfc fs (s ++ "_환경데이터.csv") = some file ∧
          ∃ r ∈ file.2, r.time = none) →
      loadEnvGo nfc fs L = Except.error LoadErr.malformedTimestamp := by
  intro L
  induction L with
  | nil =>
    rintro ⟨s, hs, _⟩
    cases hs
  | cons s ss ih =>
    rintro ⟨s2, hs2, file, hfile, hbad⟩
    rcases List.mem_cons.mp hs2 with rfl | hs2
    · have hparse : parse_env_rows s2 file.2 = none :=
        parse_env_rows_none s2 file.2 hbad
      unfold loadEnvGo
      simp only [hfile, hparse]
    · have herr := ih ⟨s2, hs2, file, hfile, hbad⟩
      unfold loadEnvGo
      cases hf : find_file_by_name nfc fs (s ++ "_환경데이터.csv") with
      | none => simp only [hf, herr]
      | some file2 =>
        cases hp : parse_env_rows s file2.2 with
        | none => simp only [hf, hp]
        | some ds => simp only [hf, hp, herr]

/-- **C1 counterexample.**  하늘고's file has one unparseable time cell
while 송도고's file is perfectly fine, yet the whole batch load raises:
no partial map containing 송도고 is returned, contradicting the claimed
per-school confinement. -/
theorem c1_counterexample :
    load_environment_data id
      [("송도고_환경데이터.csv", [⟨some 0, 20⟩]),
       ("하늘고_환경데이터.csv", [⟨none, 21⟩]),
       ("아라고_환경데이터.csv", [⟨some 0, 22⟩]),
       ("동산고_환경데이터.csv", [⟨some 0, 23⟩])] =
      Except.error LoadErr.malformedTimestamp := rfl

/-- **C1 amended.**  An unparseable time value fails the dataset load
with `MalformedTimestamp` and no row is silently dropped on success, but
the failure is NOT confined to that school: the exception propagates out
of the batch loop, so `load_environment_data` fails as a whole and
returns no partial map. -/
theorem c1_amended :
    (∀ (nfc : String → String) (fs : List (String × List EnvRaw)),
        (∃ s ∈ schools, ∃ file,
            find_file_by_name nfc fs (s ++ "_환경데이터.csv") = some file ∧
            ∃ r ∈ file.2, r.time = none) →
        load_environment_data nfc fs =
          Except.error LoadErr.malformedTimestamp) ∧
    (∀ (s : String) (rows : List EnvRaw) (ds : List EnvRow),
        parse_env_rows s rows = some ds → ds.length = rows.length) := by
  constructor
  · intro nfc fs h
    exact loadEnvGo_error nfc fs schools h
  · exact parse_env_rows_length

/-- Witness for C1 (amended) at a concrete directory: the batch raises,
and a fully-parsed file keeps all its rows. -/
theorem c1_amended_witness :
    load_environment_data id
      [("송도고_환경데이터.csv", [⟨some 0, 20⟩]),
       ("하늘고_환경데이터.csv", [⟨none, 21⟩])] =
      Except.error LoadErr.malformedTimestamp ∧
    ([⟨0, 20, "송도고"⟩] : List EnvRow).length =
      ([⟨some 0, 20⟩] : List EnvRaw).length := by
  constructor
  · exact c1_amended.1 id _
      ⟨"하늘고", by decide, ("하늘고_환경데이터.csv", [⟨none, 21⟩]), rfl,
        ⟨none, 21⟩, by simp, rfl⟩
  · exact c1_amended.2 "송도고" [⟨some 0, 20⟩] [⟨0, 20, "송도고"⟩] rfl

/-!
### Claim C7 — exactly one school's file missing
-/

/-- The loading loop over any school list: with `s0`'s file missing and
every other school loading cleanly, the loop succeeds, flags exactly the
occurrences of `s0`, and the returned map covers exactly the other
schools in order. -/
theorem loadEnvGo_one_missing (nfc : String → String)
    (fs : List (String × List EnvRaw)) (s0 : String)
    (hmiss : find_file_by_name nfc fs (s0 ++ "_환경데이터.csv") = none) :
    ∀ L : List String,
      (∀ s ∈ L, s ≠ s0 → ∃ file ds,
          find_file_by_name nfc fs (s ++ "_환경데이터.csv") = some file ∧
          parse_env_rows s file.2 = some ds) →
      ∃ m, loadEnvGo nfc fs L =
          Except.ok (m, L.filter (fun s => s == s0)) ∧
        m.map Prod.fst = L.filter (fun s => s != s0) := by
  intro L
  induction L with
  | nil => exact fun _ => ⟨[], rfl, rfl⟩
  | cons s ss ih =>
    intro hgood
    obtain ⟨m, hm, hk⟩ := ih (fun s2 h2 => hgood s2 (List.mem_cons_of_mem s h2))
    by_cases hs : s = s0
    · subst hs
      refine ⟨m, ?_, ?_⟩
      · unfold loadEnvGo
        simp only [hmiss, hm]
        simp [List.filter_cons]
      · rw [hk]
        simp [List.filter_cons]
    · obtain ⟨file, ds, hfile, hparse⟩ :=
        hgood s (List.mem_cons_self s ss) hs
      refine ⟨(s, ds) :: m, ?_, ?_⟩
      · unfold loadEnvGo
        simp only [hfile, hparse, hm]
        simp [List.filter_cons, hs]
      · simp [List.filter_cons, hk, hs]

/-- **C7.**  Over the fixed school set, when exactly one school's file is
missing (and the others load cleanly), `load_environment_data` returns a
map containing datasets for all the other schools, flags exactly the
missing school, and does not raise. -/
theorem c7_one_missing (nfc : String → String)
    (fs : List (String × List EnvRaw)) (s0 : String) (h0 : s0 ∈ schools)
    (hmiss : find_file_by_name nfc fs (s0 ++ "_환경데이터.csv") = none)
    (hgood : ∀ s ∈ schools, s ≠ s0 → ∃ file ds,
        find_file_by_name nfc fs (s ++ "_환경데이터.csv") = some file ∧
        parse_env_rows s file.2 = some ds) :
    ∃ m, load_environment_data nfc fs = Except.ok (m, [s0]) ∧
      m.map Prod.fst = schools.filter (fun s => s != s0) := by
  obtain ⟨m, hm, hk⟩ := loadEnvGo_one_missing nfc fs s0 hmiss schools hgood
  have h0x : s0 = "송도고" ∨ s0 = "하늘고" ∨ s0 = "아라고" ∨ s0 = "동산고" := by
    simpa [schools, SCHOOL_EC] using h0
  have hfilter : schools.filter (fun s => s == s0) = [s0] := by
    rcases h0x with rfl | rfl | rfl | rfl <;> decide
  exact ⟨m, by rw [load_environment_data, hm, hfilter], hk⟩

/-- Witness for C7: 하늘고's file is absent from a concrete directory,
the other three load, 하늘고 alone is flagged, nothing raises. -/
theorem c7_one_missing_witness :
    ∃ m, load_environment_data id
        [("송도고_환경데이터.csv", [⟨some 0, 20⟩]),
         ("아라고_환경데이터.csv", [⟨some 1, 22⟩]),
         ("동산고_환경데이터.csv", [⟨some 2, 23⟩])] =
      Except.ok (m, ["하늘고"]) ∧
      m.map Prod.fst = schools.filter (fun s => s != "하늘고") := by
  refine c7_one_missing id _ "하늘고" (by decide) rfl ?_
  intro s hs hne
  have hs4 : s = "송도고" ∨ s = "하늘고" ∨ s = "아라고" ∨ s = "동산고" := by
    simpa [schools, SCHOOL_EC] using hs
  rcases hs4 with rfl | rfl | rfl | rfl
  · exact ⟨("송도고_환경데이터.csv", [⟨some 0, 20⟩]), [⟨0, 20, "송도고"⟩],
      rfl, rfl⟩
  · exact absurd rfl hne
  · exact ⟨("아라고_환경데이터.csv", [⟨some 1, 22⟩]), [⟨1, 22, "아라고"⟩],
      rfl, rfl⟩
  · exact ⟨("동산고_환경데이터.csv", [⟨some 2, 23⟩]), [⟨2, 23, "동산고"⟩],
      rfl, rfl⟩

/-!
### Claim C9 — weighted recombination of group means
-/

/-- Splitting a mapped sum along a Boolean predicate. -/
theorem sum_map_filter_split {β M : Type} [AddCommMonoid M] (f : β → M)
    (p : β → Bool) (t : List β) :
    ((t.filter p).map f).sum + ((t.filter (fun r => !(p r))).map f).sum =
      (t.map f).sum := by
  induction t with
  | nil => simp
  | cons r rs ih =>
    cases hp : p r with
    | true => simp [List.filter_cons, hp, add_assoc, ih]
    | false =>
      simp only [List.filter_cons, hp, Bool.not_false, if_true, if_false,
        Bool.false_eq_true, List.map_cons, List.sum_cons, List.map_nil]
      rw [add_left_comm, ih]

/-- Partitioning a mapped sum over a duplicate-free list of group keys
that covers every row. -/
theorem partition_sum {β M : Type} [AddCommMonoid M]
    (key : β → Option ℚ) (f : β → M) :
    ∀ K : List ℚ, K.Nodup → ∀ t : List β,
      (∀ r ∈ t, ∃ k ∈ K, key r = some k) →
      (K.map (fun k => ((groupRows key t k).map f).sum)).sum =
        (t.map f).sum := by
  intro K
  induction K with
  | nil =>
    intro _ t ht
    have htnil : t = [] := by
      cases t with
      | nil => rfl
      | cons r rs =>
        obtain ⟨k, hk, _⟩ := ht r (List.mem_cons_self r rs)
        cases hk
    subst htnil
    rfl
  | cons k0 K ih =>
    intro hnd t ht
    have hk0 := (List.nodup_cons.mp hnd).1
    have hnd2 := (List.nodup_cons.mp hnd).2
    rw [List.map_cons, List.sum_cons]
    have hgr : ∀ k ∈ K, groupRows key t k =
        groupRows key (t.filter (fun r => !(key r == some k0))) k := by
      intro k hk
      have hne : k ≠ k0 := by
        rintro rfl
        exact hk0 hk
      have hcong : ∀ r ∈ t, (key r == some k) =
          ((key r == some k) && !(key r == some k0)) := by
        intro r _
        cases hkr : (key r == some k) with
        | false => rfl
        | true =>
          have hkey : key r = some k := by simpa using hkr
          have hf : (key r == some k0) = false := by
            rw [hkey]
            simp [hne]
          rw [hf]
          rfl
      unfold groupRows
      rw [List.filter_filter]
      exact List.filter_congr hcong
    have hcov2 : ∀ r ∈ t.filter (fun r => !(key r == some k0)),
        ∃ k ∈ K, key r = some k := by
      intro r hr
      obtain ⟨hrt, hcond⟩ := List.mem_filter.mp hr
      obtain ⟨k, hk, hkey⟩ := ht r hrt
      rcases List.mem_cons.mp hk with rfl | hk
      · exfalso
        rw [hkey] at hcond
        simp at hcond
      · exact ⟨k, hk, hkey⟩
    have hmap2 : (K.map (fun k => ((groupRows key t k).map f).sum)).sum =
        (K.map (fun k => ((groupRows key
          (t.filter (fun r => !(key r == some k0))) k).map f).sum)).sum := by
      apply congrArg
      apply List.map_congr_left
      intro k hk
      rw [hgr k hk]
    rw [hmap2, ih hnd2 _ hcov2]
    exact sum_map_filter_split f (fun r => key r == some k0) t

/-- On a column with no missing values, `filterMap` is just the total
extraction. -/
theorem filterMap_eq_map_getD {β : Type} (val : β → Option ℚ) (l : List β)
    (h : ∀ r ∈ l, (val r).isSome) :
    l.filterMap val = l.map (fun r => (val r).getD 0) := by
  induction l with
  | nil => rfl
  | cons r rs ih =>
    obtain ⟨v, hv⟩ :=
      Option.isSome_iff_exists.mp (h r (List.mem_cons_self r rs))
    rw [List.filterMap_cons, List.map_cons, hv,
      ih (fun x hx => h x (List.mem_cons_of_mem r hx))]
    rfl

/-- Counting rows with a constant-one rational map. -/
theorem sum_map_ones_rat {β : Type} (l : List β) :
    (l.map (fun _ => (1 : ℚ))).sum = (l.length : ℚ) := by
  induction l with
  | nil => rfl
  | cons r rs ih =>
    simp [ih, add_comm]

/-- Counting rows with a constant-one natural map. -/
theorem sum_map_ones_nat {β : Type} (l : List β) :
    (l.map (fun _ => (1 : ℕ))).sum = l.length := by
  induction l with
  | nil => rfl
  | cons r rs ih =>
    simp [ih, Nat.add_comm]

/-- Zipping two maps over the same index list and mapping the pair. -/
theorem zip_map_map {β γ δ ε : Type} (l : List β) (f : β → γ) (g : β → δ)
    (h : γ × δ → ε) :
    ((l.map f).zip (l.map g)).map h = l.map (fun a => h (f a, g a)) := by
  induction l with
  | nil => rfl
  | cons a as ih => simp [ih]

/-- **C9 amended.**  On every table all of whose rows have a present
group key and a present value, the per-group means of `meanBy` weighted
by the per-group counts of `countBy` recombine exactly (in the exact
rational model; "within floating-point tolerance" in the float
implementation) to `overallMean` of the column.  With missing values the
identity fails (see the counterexample), because `meanBy` excludes them
while `countBy` counts their rows. -/
theorem c9_amended {β : Type} (key val : β → Option ℚ) (t : List β)
    (hkey : ∀ r ∈ t, (key r).isSome) (hval : ∀ r ∈ t, (val r).isSome) :
    weightedRecomb key val t = overallMean val t := by
  have hcov : ∀ r ∈ t, ∃ k ∈ sortedKeys key t, key r = some k := by
    intro r hr
    obtain ⟨k, hk⟩ := Option.isSome_iff_exists.mp (hkey r hr)
    exact ⟨k, (mem_sortedKeys key t k).mpr ⟨r, hr, hk⟩, hk⟩
  have hnd := nodup_sortedKeys key t
  have hgv : ∀ k : ℚ, groupVals key val t k =
      (groupRows key t k).map (fun r => (val r).getD 0) := by
    intro k
    apply filterMap_eq_map_getD
    intro r hr
    exact hval r (List.mem_filter.mp hr).1
  have hpos : ∀ k ∈ sortedKeys key t, (groupRows key t k).length ≠ 0 := by
    intro k hk h0
    obtain ⟨r, hr, hkr⟩ := (mem_sortedKeys key t k).mp hk
    have hmem : r ∈ groupRows key t k :=
      List.mem_filter.mpr ⟨hr, by simp [hkr]⟩
    rw [List.length_eq_zero.mp h0] at hmem
    cases hmem
  have httl : ((countBy key t).map (fun p => p.2)).sum = t.length := by
    unfold countBy
    rw [List.map_map]
    have hstep : (sortedKeys key t).map
        ((fun p : ℚ × ℕ => p.2) ∘ fun k => (k, (groupRows key t k).length)) =
        (sortedKeys key t).map
          (fun k => ((groupRows key t k).map (fun _ => (1 : ℕ))).sum) := by
      apply List.map_congr_left
      intro k hk
      exact (sum_map_ones_nat _).symm
    rw [hstep,
      partition_sum key (fun _ => (1 : ℕ)) (sortedKeys key t) hnd t hcov,
      sum_map_ones_nat]
  by_cases htnil : t = []
  · subst htnil
    rfl
  · have hlen : t.length ≠ 0 := fun h => htnil (List.length_eq_zero.mp h)
    have hov : overallMean val t =
        some ((t.map (fun r => (val r).getD 0)).sum / (t.length : ℚ)) := by
      unfold overallMean
      rw [filterMap_eq_map_getD val t hval, List.length_map, if_neg hlen]
    have hzip : (((meanBy key val t).zip (countBy key t)).map
        (fun p => p.1.2.getD 0 * (p.2.2 : ℚ))).sum =
        ((sortedKeys key t).map (fun k =>
          (groupMean key val t k).getD 0 *
            ((groupRows key t k).length : ℚ))).sum := by
      unfold meanBy countBy
      rw [zip_map_map]
    have hterm : ∀ k ∈ sortedKeys key t,
        (groupMean key val t k).getD 0 * ((groupRows key t k).length : ℚ) =
          ((groupRows key t k).map (fun r => (val r).getD 0)).sum := by
      intro k hk
      have hne : (groupVals key val t k).length ≠ 0 := by
        rw [hgv k, List.length_map]
        exact hpos k hk
      unfold groupMean
      rw [if_neg hne]
      simp only [Option.getD_some]
      rw [hgv k, List.length_map]
      exact div_mul_cancel₀ _ (Nat.cast_ne_zero.mpr (hpos k hk))
    unfold weightedRecomb
    rw [httl, if_neg hlen, hov]
    congr 1
    rw [hzip]
    congr 1
    rw [List.map_congr_left hterm]
    · exact partition_sum key (fun r => (val r).getD 0)
        (sortedKeys key t) hnd t hcov
    · rw [← httl, Nat.cast_list_sum, List.map_map]
      rfl

/-- **C9 counterexample.**  A table with one missing value (key = first
component, value = second): group 1 holds values {1, NaN}, group 2 holds
{3}.  `meanBy` reports means 1 and 3 and `countBy` reports counts 2 and
1, so the claimed recombination gives (1·2 + 3·1)/3 = 5/3, while
`overallMean` skips the NaN and gives (1 + 3)/2 = 2: the claim fails on
this table. -/
theorem c9_counterexample :
    weightedRecomb Prod.fst Prod.snd
        [((some 1 : Option ℚ), (some 1 : Option ℚ)), (some 1, none),
          (some 2, some 3)] ≠
      overallMean Prod.snd
        [((some 1 : Option ℚ), (some 1 : Option ℚ)), (some 1, none),
          (some 2, some 3)] := by
  have h12 : (((1 : ℚ)) == 2) = false := by
    rw [beq_eq_false_iff_ne]
    norm_num
  have h21 : (((2 : ℚ)) == 1) = false := by
    rw [beq_eq_false_iff_ne]
    norm_num
  norm_num [weightedRecomb, overallMean, meanBy, countBy, sortedKeys,
    groupMean, groupVals, groupRows, insertAsc, List.filterMap, List.filter,
    List.zip, List.zipWith, h12, h21]

/-- Witness for C9 (amended) at a concrete table with no missing keys or
values: the recombination is exact. -/
theorem c9_amended_witness :
    weightedRecomb Prod.fst Prod.snd
        [((some 1 : Option ℚ), (some 2 : Option ℚ)), (some 1, some 4),
          (some 3, some 6)] =
      overallMean Prod.snd
        [((some 1 : Option ℚ), (some 2 : Option ℚ)), (some 1, some 4),
          (some 3, some 6)] :=
  c9_amended Prod.fst Prod.snd _ (by decide) (by decide)
